import Mathlib

/-!
Verification of the ROI rectifier and size/calibration subsystem
(`roi.py`, `Size.py`) of the nut-and-bolt measurement utility.

Points carry integer pixel coordinates.  `order_points`, the rectified
width/height computation of `select_roi`, the homography round-trip of
`get_perspective_transform` / `unwarp_coordinates`, `calculate_size`,
the calibration store (`load_calibration_config` /
`save_calibration_config`) and the final block of `calibrate_system`
are embedded as executable Lean functions; `numpy` square roots are
modelled exactly (truncation of the real square root is `Nat.sqrt`),
`numpy`/Python slicing with its negative-index and clamping rules is
`sliceLen`, and Python `int()` truncation toward zero is `pytrunc`.
-/

/-- A 2D point with integer pixel coordinates. -/
abbrev Pt : Type := ℤ × ℤ

/-- Row sum `x + y`, as in `pts.sum(axis=1)` in `order_points`. -/
def sumXY (p : Pt) : ℤ := p.1 + p.2

/-- Row difference `y - x`, as computed by `np.diff(pts, axis=1)` in
`order_points` (the second column minus the first). -/
def diffYX (p : Pt) : ℤ := p.2 - p.1

/-- The difference `x - y` used by the wording of the specification for the
top-right / bottom-left selection. -/
def xmy (p : Pt) : ℤ := p.1 - p.2

/-- Squared Euclidean distance between two points; the radicand of every
`np.sqrt` distance computation in `roi.py` and `Size.py`. -/
def distSq (a b : Pt) : ℤ := (a.1 - b.1) ^ 2 + (a.2 - b.2) ^ 2

/-- Three points are collinear (zero cross product). -/
def collin (a b c : Pt) : Prop :=
  (b.1 - a.1) * (c.2 - a.2) = (b.2 - a.2) * (c.1 - a.1)

instance (a b c : Pt) : Decidable (collin a b c) := by
  unfold collin; infer_instance

/-- An array of four 2D points, in pick order (the argument of
`order_points`) or in {top-left, top-right, bottom-right, bottom-left}
order (its result). -/
structure Quad where
  q0 : Pt
  q1 : Pt
  q2 : Pt
  q3 : Pt
deriving DecidableEq

/-- The four points of a quad as a list. -/
def quadList (q : Quad) : List Pt := [q.q0, q.q1, q.q2, q.q3]

/-- Embedding of `pts[np.argmin(f(pts))]`: the first point of the quad attaining the
minimum of `f`, exactly the `numpy` first-occurrence tie-breaking. -/
def selMin (f : Pt → ℤ) (q : Quad) : Pt :=
  if f q.q0 ≤ f q.q1 ∧ f q.q0 ≤ f q.q2 ∧ f q.q0 ≤ f q.q3 then q.q0
  else if f q.q1 ≤ f q.q2 ∧ f q.q1 ≤ f q.q3 then q.q1
  else if f q.q2 ≤ f q.q3 then q.q2
  else q.q3

/-- Embedding of `pts[np.argmax(f(pts))]`: the first point of the quad attaining the
maximum of `f`. -/
def selMax (f : Pt → ℤ) (q : Quad) : Pt :=
  if f q.q1 ≤ f q.q0 ∧ f q.q2 ≤ f q.q0 ∧ f q.q3 ≤ f q.q0 then q.q0
  else if f q.q2 ≤ f q.q1 ∧ f q.q3 ≤ f q.q1 then q.q1
  else if f q.q3 ≤ f q.q2 then q.q2
  else q.q3

/-- Embedding of `order_points` (`roi.py`, lines 112-130): `rect[0]` and `rect[2]`
are the points of smallest and largest coordinate sum, `rect[1]` and
`rect[3]` the points of smallest and largest `np.diff` value `y - x`. -/
def order_points (q : Quad) : Quad :=
  { q0 := selMin sumXY q
    q1 := selMin diffYX q
    q2 := selMax sumXY q
    q3 := selMax diffYX q }

/-- The ordering described by the specification sentence, for comparison
with `order_points`: top-right = point minimizing `x - y`, bottom-left =
point maximizing `x - y` (sum rules as in the code). -/
def order_points_claimed (q : Quad) : Quad :=
  { q0 := selMin sumXY q
    q1 := selMin xmy q
    q2 := selMax sumXY q
    q3 := selMax xmy q }

/-- Any two points of the quad attaining the minimum of `f` coincide. -/
abbrev MinUnique (f : Pt → ℤ) (q : Quad) : Prop :=
  ∀ a ∈ quadList q, ∀ b ∈ quadList q,
    (∀ c ∈ quadList q, f a ≤ f c) → (∀ c ∈ quadList q, f b ≤ f c) → a = b

/-- Any two points of the quad attaining the maximum of `f` coincide. -/
abbrev MaxUnique (f : Pt → ℤ) (q : Quad) : Prop :=
  ∀ a ∈ quadList q, ∀ b ∈ quadList q,
    (∀ c ∈ quadList q, f c ≤ f a) → (∀ c ∈ quadList q, f c ≤ f b) → a = b

/-- Non-degeneracy of four picked points as the specification uses it:
no three of the points are collinear, and the sum and difference extrema
are each uniquely attained. -/
abbrev NonDeg (q : Quad) : Prop :=
  MinUnique sumXY q ∧ MaxUnique sumXY q ∧
  MinUnique diffYX q ∧ MaxUnique diffYX q ∧
  ¬collin q.q0 q.q1 q.q2 ∧ ¬collin q.q0 q.q1 q.q3 ∧
  ¬collin q.q0 q.q2 q.q3 ∧ ¬collin q.q1 q.q2 q.q3

/-- The example square ROI from the specification:
points (100,100), (300,100), (300,300), (100,300). -/
def sqQuad : Quad := ⟨(100, 100), (300, 100), (300, 300), (100, 300)⟩

lemma selMin_mem (f : Pt → ℤ) (q : Quad) : selMin f q ∈ quadList q := by
  simp only [selMin, quadList]
  split_ifs <;> simp

lemma selMax_mem (f : Pt → ℤ) (q : Quad) : selMax f q ∈ quadList q := by
  simp only [selMax, quadList]
  split_ifs <;> simp

lemma selMin_le (f : Pt → ℤ) (q : Quad) :
    ∀ c ∈ quadList q, f (selMin f q) ≤ f c := by
  intro c hc
  simp only [quadList, List.mem_cons, List.not_mem_nil, or_false] at hc
  simp only [selMin]
  split_ifs with h1 h2 h3 <;> rcases hc with rfl | rfl | rfl | rfl <;> omega

lemma selMax_ge (f : Pt → ℤ) (q : Quad) :
    ∀ c ∈ quadList q, f c ≤ f (selMax f q) := by
  intro c hc
  simp only [quadList, List.mem_cons, List.not_mem_nil, or_false] at hc
  simp only [selMax]
  split_ifs with h1 h2 h3 <;> rcases hc with rfl | rfl | rfl | rfl <;> omega

lemma mem_order_points (q : Quad) :
    ∀ a ∈ quadList (order_points q), a ∈ quadList q := by
  intro a ha
  simp only [order_points, quadList, List.mem_cons, List.not_mem_nil,
    or_false] at ha
  rcases ha with rfl | rfl | rfl | rfl
  · exact selMin_mem _ _
  · exact selMin_mem _ _
  · exact selMax_mem _ _
  · exact selMax_mem _ _

lemma selMin_order_points (f : Pt → ℤ) (q : Quad)
    (hu : MinUnique f q) (hsel : ∀ c ∈ quadList q, f (selMin f q) ≤ f c)
    (hmem : selMin f q ∈ quadList (order_points q)) :
    selMin f (order_points q) = selMin f q := by
  apply hu
  · exact mem_order_points q _ (selMin_mem f (order_points q))
  · exact selMin_mem f q
  · intro c hc
    calc f (selMin f (order_points q)) ≤ f (selMin f q) :=
          selMin_le f (order_points q) _ hmem
      _ ≤ f c := hsel c hc
  · exact hsel

lemma selMax_order_points (f : Pt → ℤ) (q : Quad)
    (hu : MaxUnique f q) (hsel : ∀ c ∈ quadList q, f c ≤ f (selMax f q))
    (hmem : selMax f q ∈ quadList (order_points q)) :
    selMax f (order_points q) = selMax f q := by
  apply hu
  · exact mem_order_points q _ (selMax_mem f (order_points q))
  · exact selMax_mem f q
  · intro c hc
    calc f c ≤ f (selMax f q) := hsel c hc
      _ ≤ f (selMax f (order_points q)) :=
          selMax_ge f (order_points q) _ hmem
  · exact hsel

/-- The members of `order_points q` as members of its list. -/
lemma order_points_list (q : Quad) :
    quadList (order_points q) =
      [selMin sumXY q, selMin diffYX q, selMax sumXY q, selMax diffYX q] :=
  rfl

/-- C3: for every array of four non-degenerate points, `order_points` is
idempotent: applying it to its own output yields the same four points in
the same order. -/
theorem order_points_idempotent (q : Quad) (h : NonDeg q) :
    order_points (order_points q) = order_points q := by
  obtain ⟨hminS, hmaxS, hminD, hmaxD, -⟩ := h
  have m0 : selMin sumXY q ∈ quadList (order_points q) := by
    rw [order_points_list]; simp
  have m1 : selMin diffYX q ∈ quadList (order_points q) := by
    rw [order_points_list]; simp
  have m2 : selMax sumXY q ∈ quadList (order_points q) := by
    rw [order_points_list]; simp
  have m3 : selMax diffYX q ∈ quadList (order_points q) := by
    rw [order_points_list]; simp
  show Quad.mk _ _ _ _ = _
  rw [selMin_order_points sumXY q hminS (selMin_le sumXY q) m0,
    selMin_order_points diffYX q hminD (selMin_le diffYX q) m1,
    selMax_order_points sumXY q hmaxS (selMax_ge sumXY q) m2,
    selMax_order_points diffYX q hmaxD (selMax_ge diffYX q) m3]
  rfl

/-- Witness for C3 at the example square: the hypotheses hold and the
idempotence follows by the theorem. -/
theorem order_points_idempotent_witness :
    NonDeg sqQuad ∧ order_points (order_points sqQuad) = order_points sqQuad :=
  ⟨by decide, order_points_idempotent sqQuad (by decide)⟩

/-- C1 counterexample: at the example square of the specification the
four points are non-degenerate, yet `order_points` does not place the
point minimizing `x - y` at the top-right slot (the claimed rule): the
code puts (300,100) there while the minimizer of `x - y` is (100,300).
`np.diff` yields `y - x`, so the code selects by `y - x`, which flips
the claimed direction. -/
theorem order_points_claimed_direction_cex :
    NonDeg sqQuad ∧
    order_points sqQuad ≠ order_points_claimed sqQuad ∧
    (order_points sqQuad).q1 = (300, 100) ∧
    (order_points_claimed sqQuad).q1 = (100, 300) ∧
    (∀ c ∈ quadList sqQuad, xmy ((100, 300) : Pt) ≤ xmy c) := by
  refine ⟨by decide, by decide, by decide, by decide, by decide⟩

/-- C1 as amended: for four non-degenerate points, `order_points`
returns the point minimizing `x + y` first, the point MAXIMIZING `x - y`
(equivalently minimizing `y - x`) second, the point maximizing `x + y`
third, and the point MINIMIZING `x - y` (maximizing `y - x`) fourth;
each returned point is one of the inputs. -/
theorem order_points_extrema (q : Quad) (_h : NonDeg q) :
    ((order_points q).q0 ∈ quadList q ∧
      ∀ c ∈ quadList q, sumXY (order_points q).q0 ≤ sumXY c) ∧
    ((order_points q).q1 ∈ quadList q ∧
      ∀ c ∈ quadList q, xmy c ≤ xmy (order_points q).q1) ∧
    ((order_points q).q2 ∈ quadList q ∧
      ∀ c ∈ quadList q, sumXY c ≤ sumXY (order_points q).q2) ∧
    ((order_points q).q3 ∈ quadList q ∧
      ∀ c ∈ quadList q, xmy (order_points q).q3 ≤ xmy c) := by
  refine ⟨⟨selMin_mem _ _, selMin_le _ _⟩, ⟨selMin_mem _ _, ?_⟩,
    ⟨selMax_mem _ _, selMax_ge _ _⟩, ⟨selMax_mem _ _, ?_⟩⟩
  · intro c hc
    have h1 : (order_points q).q1 = selMin diffYX q := rfl
    have := selMin_le diffYX q c hc
    rw [h1]
    simp only [diffYX, xmy] at this ⊢
    omega
  · intro c hc
    have h3 : (order_points q).q3 = selMax diffYX q := rfl
    have := selMax_ge diffYX q c hc
    rw [h3]
    simp only [diffYX, xmy] at this ⊢
    omega

/-- Witness for the amended C1 at the example square. -/
theorem order_points_extrema_witness :
    NonDeg sqQuad ∧
    (((order_points sqQuad).q0 ∈ quadList sqQuad ∧
        ∀ c ∈ quadList sqQuad, sumXY (order_points sqQuad).q0 ≤ sumXY c) ∧
      ((order_points sqQuad).q1 ∈ quadList sqQuad ∧
        ∀ c ∈ quadList sqQuad, xmy c ≤ xmy (order_points sqQuad).q1) ∧
      ((order_points sqQuad).q2 ∈ quadList sqQuad ∧
        ∀ c ∈ quadList sqQuad, sumXY c ≤ sumXY (order_points sqQuad).q2) ∧
      ((order_points sqQuad).q3 ∈ quadList sqQuad ∧
        ∀ c ∈ quadList sqQuad, xmy (order_points sqQuad).q3 ≤ xmy c)) :=
  ⟨by decide, order_points_extrema sqQuad (by decide)⟩

/-- Embedding of `max(int(width_a), int(width_b))` of `select_roi` (`roi.py`, lines
85-87): the larger of the truncated Euclidean lengths of the top edge
(rect[1]-rect[0]) and the bottom edge (rect[2]-rect[3]). `int()` of the
exact square root of a natural number is `Nat.sqrt`. -/
def roi_max_width (q : Quad) : ℕ :=
  max (Nat.sqrt (distSq q.q1 q.q0).toNat) (Nat.sqrt (distSq q.q2 q.q3).toNat)

/-- Embedding of `max(int(height_a), int(height_b))` of `select_roi` (`roi.py`, lines
89-91): the larger of the truncated Euclidean lengths of the left edge
(rect[3]-rect[0]) and the right edge (rect[2]-rect[1]). -/
def roi_max_height (q : Quad) : ℕ :=
  max (Nat.sqrt (distSq q.q3 q.q0).toNat) (Nat.sqrt (distSq q.q2 q.q1).toNat)

lemma natSqrt_distSq_eq_floor (a b : Pt) :
    Nat.sqrt (distSq a b).toNat =
      ⌊Real.sqrt ((((a.1 - b.1 : ℤ) : ℝ)) ^ 2 + (((a.2 - b.2 : ℤ) : ℝ)) ^ 2)⌋₊ := by
  have hnn : (0 : ℤ) ≤ distSq a b := by
    unfold distSq; positivity
  have hcast : ((((a.1 - b.1 : ℤ) : ℝ)) ^ 2 + (((a.2 - b.2 : ℤ) : ℝ)) ^ 2) =
      (((distSq a b).toNat : ℕ) : ℝ) := by
    have hc2 : (((distSq a b).toNat : ℕ) : ℝ) = ((distSq a b : ℤ) : ℝ) := by
      rw [← Int.cast_natCast, Int.toNat_of_nonneg hnn]
    rw [hc2]
    unfold distSq
    push_cast
    ring
  rw [hcast, Real.nat_floor_real_sqrt_eq_nat_sqrt]

/-- C4: for every ordered four-point ROI, the rectified width is the
greater of the truncated Euclidean lengths of the top and bottom edges
and the rectified height the greater of the truncated Euclidean lengths
of the left and right edges; and the example square orders to itself and
yields width = height = 200. -/
theorem roi_rect_dimensions :
    (∀ q : Quad,
      roi_max_width q =
        max ⌊Real.sqrt ((((q.q1.1 - q.q0.1 : ℤ) : ℝ)) ^ 2 +
              (((q.q1.2 - q.q0.2 : ℤ) : ℝ)) ^ 2)⌋₊
          ⌊Real.sqrt ((((q.q2.1 - q.q3.1 : ℤ) : ℝ)) ^ 2 +
              (((q.q2.2 - q.q3.2 : ℤ) : ℝ)) ^ 2)⌋₊ ∧
      roi_max_height q =
        max ⌊Real.sqrt ((((q.q3.1 - q.q0.1 : ℤ) : ℝ)) ^ 2 +
              (((q.q3.2 - q.q0.2 : ℤ) : ℝ)) ^ 2)⌋₊
          ⌊Real.sqrt ((((q.q2.1 - q.q1.1 : ℤ) : ℝ)) ^ 2 +
              (((q.q2.2 - q.q1.2 : ℤ) : ℝ)) ^ 2)⌋₊) ∧
    order_points sqQuad = sqQuad ∧
    roi_max_width sqQuad = 200 ∧ roi_max_height sqQuad = 200 := by
  refine ⟨fun q => ⟨?_, ?_⟩, by decide, ?_, ?_⟩
  · rw [roi_max_width, natSqrt_distSq_eq_floor, natSqrt_distSq_eq_floor]
  · rw [roi_max_height, natSqrt_distSq_eq_floor, natSqrt_distSq_eq_floor]
  · have h : Nat.sqrt 40000 = 200 := (Nat.eq_sqrt.2 (by norm_num)).symm
    show max (Nat.sqrt (40000 : ℤ).toNat) (Nat.sqrt (40000 : ℤ).toNat) = 200
    simpa using h
  · have h : Nat.sqrt 40000 = 200 := (Nat.eq_sqrt.2 (by norm_num)).symm
    show max (Nat.sqrt (40000 : ℤ).toNat) (Nat.sqrt (40000 : ℤ).toNat) = 200
    simpa using h

/-- A 3x3 homography matrix with rational entries, as produced by the
perspective-transform computation on integer pixel corner data. -/
structure M3 where
  m00 : ℚ
  m01 : ℚ
  m02 : ℚ
  m10 : ℚ
  m11 : ℚ
  m12 : ℚ
  m20 : ℚ
  m21 : ℚ
  m22 : ℚ
deriving DecidableEq

/-- Matrix product of two 3x3 matrices. -/
def m3mul (A B : M3) : M3 :=
  ⟨A.m00 * B.m00 + A.m01 * B.m10 + A.m02 * B.m20,
   A.m00 * B.m01 + A.m01 * B.m11 + A.m02 * B.m21,
   A.m00 * B.m02 + A.m01 * B.m12 + A.m02 * B.m22,
   A.m10 * B.m00 + A.m11 * B.m10 + A.m12 * B.m20,
   A.m10 * B.m01 + A.m11 * B.m11 + A.m12 * B.m21,
   A.m10 * B.m02 + A.m11 * B.m12 + A.m12 * B.m22,
   A.m20 * B.m00 + A.m21 * B.m10 + A.m22 * B.m20,
   A.m20 * B.m01 + A.m21 * B.m11 + A.m22 * B.m21,
   A.m20 * B.m02 + A.m21 * B.m12 + A.m22 * B.m22⟩

/-- The 3x3 identity matrix. -/
def m3id : M3 := ⟨1, 0, 0, 0, 1, 0, 0, 0, 1⟩

/-- A 3-component homogeneous coordinate vector. -/
abbrev V3 : Type := ℚ × ℚ × ℚ

/-- Action of a 3x3 matrix on a homogeneous coordinate vector. -/
def m3act (m : M3) (v : V3) : V3 :=
  (m.m00 * v.1 + m.m01 * v.2.1 + m.m02 * v.2.2,
   m.m10 * v.1 + m.m11 * v.2.1 + m.m12 * v.2.2,
   m.m20 * v.1 + m.m21 * v.2.1 + m.m22 * v.2.2)

/-- Scalar multiple of a homogeneous coordinate vector. -/
def v3smul (c : ℚ) (v : V3) : V3 := (c * v.1, c * v.2.1, c * v.2.2)

/-- Projective application of a homography to a 2D point, the semantics
of `cv2.perspectiveTransform` used by `unwarp_coordinates` and of the
warping of a single point by `cv2.warpPerspective`: extend the point to
homogeneous coordinates, apply the matrix, divide by the third
component; undefined (`none`) where the third component vanishes. -/
def perspApply (m : M3) (p : ℚ × ℚ) : Option (ℚ × ℚ) :=
  let u := m3act m (p.1, p.2, 1)
  if u.2.2 = 0 then none else some (u.1 / u.2.2, u.2.1 / u.2.2)

/-- Python `int()` truncation toward zero of a rational. -/
def pytrunc (q : ℚ) : ℤ := q.num.tdiv (q.den : ℤ)

/-- Embedding of `unwarp_coordinates` (`roi.py`, lines 185-198) with a matrix
supplied: apply the inverse perspective transform via
`cv2.perspectiveTransform` and truncate both output coordinates with
`int()`. -/
def unwarp_coordinates (minv : M3) (p : ℚ × ℚ) : Option (ℤ × ℤ) :=
  (perspApply minv p).map fun q => (pytrunc q.1, pytrunc q.2)

/-- An ROI configuration as stored by `select_roi`: the four ordered
points, and the derived rectified width and height. -/
structure RoiConfig where
  points : Quad
  width : ℕ
  height : ℕ

/-- Cast a pixel point to rational coordinates. -/
def ptQ (p : Pt) : ℚ × ℚ := ((p.1 : ℚ), (p.2 : ℚ))

/-- Modelled from the spec: `cv2.getPerspectiveTransform`, called by
`get_perspective_transform` (`roi.py`, lines 147-168), is an external
library routine not in the repository; per the specification it "solves
the 4-point-correspondence homography mapping the ordered source
quadrilateral to the destination rectangle corners
(0,0)-(W-1,0)-(W-1,H-1)-(0,H-1)".  This predicate states that a matrix
is that solution: it maps each source point to its destination
corner. -/
def IsPerspectiveTransform (c : RoiConfig) (m : M3) : Prop :=
  perspApply m (ptQ c.points.q0) = some (0, 0) ∧
  perspApply m (ptQ c.points.q1) = some ((c.width : ℚ) - 1, 0) ∧
  perspApply m (ptQ c.points.q2) = some ((c.width : ℚ) - 1, (c.height : ℚ) - 1) ∧
  perspApply m (ptQ c.points.q3) = some (0, (c.height : ℚ) - 1)

lemma m3act_mul (A B : M3) (v : V3) :
    m3act (m3mul A B) v = m3act A (m3act B v) := by
  simp only [m3act, m3mul, Prod.mk.injEq]
  refine ⟨by ring, by ring, by ring⟩

lemma m3act_smul (m : M3) (c : ℚ) (v : V3) :
    m3act m (v3smul c v) = v3smul c (m3act m v) := by
  simp only [m3act, v3smul, Prod.mk.injEq]
  refine ⟨by ring, by ring, by ring⟩

lemma m3act_id (v : V3) : m3act m3id v = v := by
  simp only [m3act, m3id]
  refine Prod.ext (by ring) (Prod.ext (by ring) (by ring))

lemma pytrunc_intCast (n : ℤ) : pytrunc (n : ℚ) = n := by
  simp [pytrunc, Rat.num_intCast, Rat.den_intCast]

/-- C2: round-trip law of the ROI rectifier.  For any ROI configuration,
any matrix `m` that is the perspective transform produced for it, and
any inverse matrix `minv` (the matrix inverse of `m`), warping an
integer pixel point `p` at which the transform is defined to the
rectified frame and mapping the result back through
`unwarp_coordinates` recovers `p` exactly. -/
theorem warp_unwarp_roundtrip (c : RoiConfig) (m minv : M3)
    (_hpt : IsPerspectiveTransform c m)
    (hinv : m3mul minv m = m3id)
    (p : Pt) (q : ℚ × ℚ)
    (hwarp : perspApply m (ptQ p) = some q) :
    unwarp_coordinates minv q = some p := by
  set u := m3act m ((p.1 : ℚ), (p.2 : ℚ), 1) with hu
  have hw : u.2.2 ≠ 0 := by
    intro h0
    simp only [perspApply, ptQ] at hwarp
    rw [← hu, if_pos h0] at hwarp
    exact Option.noConfusion hwarp
  have hq : q = (u.1 / u.2.2, u.2.1 / u.2.2) := by
    simp only [perspApply, ptQ] at hwarp
    rw [← hu, if_neg hw] at hwarp
    exact (Option.some.injEq _ _).mp hwarp.symm
  have hback : m3act minv (q.1, q.2, 1) =
      v3smul (1 / u.2.2) ((p.1 : ℚ), (p.2 : ℚ), 1) := by
    have hqv : (q.1, q.2, (1 : ℚ)) = v3smul (1 / u.2.2) u := by
      rw [hq]
      simp only [v3smul, Prod.mk.injEq]
      refine ⟨by ring, by ring, ?_⟩
      field_simp
    rw [hqv, m3act_smul, ← m3act_mul, hinv, m3act_id]
  have hz : (m3act minv (q.1, q.2, 1)).2.2 = 1 / u.2.2 := by
    rw [hback]; simp [v3smul]
  have hx : (m3act minv (q.1, q.2, 1)).1 = (1 / u.2.2) * (p.1 : ℚ) := by
    rw [hback]; rfl
  have hy : (m3act minv (q.1, q.2, 1)).2.1 = (1 / u.2.2) * (p.2 : ℚ) := by
    rw [hback]; rfl
  have hz' : (m3act minv (q.1, q.2, 1)).2.2 ≠ 0 := by
    rw [hz]; exact one_div_ne_zero hw
  have hxv : (m3act minv (q.1, q.2, 1)).1 / (m3act minv (q.1, q.2, 1)).2.2 =
      (p.1 : ℚ) := by
    rw [hx, hz]
    field_simp
  have hyv : (m3act minv (q.1, q.2, 1)).2.1 / (m3act minv (q.1, q.2, 1)).2.2 =
      (p.2 : ℚ) := by
    rw [hy, hz]
    field_simp
  have happ : perspApply minv q = some ((p.1 : ℚ), (p.2 : ℚ)) := by
    show (if (m3act minv (q.1, q.2, 1)).2.2 = 0 then none
      else some ((m3act minv (q.1, q.2, 1)).1 / (m3act minv (q.1, q.2, 1)).2.2,
        (m3act minv (q.1, q.2, 1)).2.1 / (m3act minv (q.1, q.2, 1)).2.2)) =
      some ((p.1 : ℚ), (p.2 : ℚ))
    rw [if_neg hz', hxv, hyv]
  show (perspApply minv q).map (fun r => (pytrunc r.1, pytrunc r.2)) =
    some (p.1, p.2)
  rw [happ]
  show some (pytrunc (p.1 : ℚ), pytrunc (p.2 : ℚ)) = some (p.1, p.2)
  rw [pytrunc_intCast, pytrunc_intCast]

/-- The example square ROI configuration (width = height = 200). -/
def sqCfg : RoiConfig := ⟨sqQuad, 200, 200⟩

/-- The perspective transform for `sqCfg`: an axis-aligned scale by
199/200 and translation taking (100,100) to (0,0) and (300,300) to
(199,199). -/
def mSq : M3 := ⟨199/200, 0, -(199/2), 0, 199/200, -(199/2), 0, 0, 1⟩

/-- The matrix inverse of `mSq`. -/
def mSqInv : M3 := ⟨200/199, 0, 100, 0, 200/199, 100, 0, 0, 1⟩

/-- Witness for C2: for the example square configuration, its transform
and inverse, the interior point (150,150) warps to (199/4, 199/4) and
unwarps back to exactly (150,150). -/
theorem warp_unwarp_roundtrip_witness :
    IsPerspectiveTransform sqCfg mSq ∧
    m3mul mSqInv mSq = m3id ∧
    perspApply mSq (ptQ (150, 150)) = some (199/4, 199/4) ∧
    unwarp_coordinates mSqInv (199/4, 199/4) = some (150, 150) := by
  have h1 : IsPerspectiveTransform sqCfg mSq := by
    refine ⟨?_, ?_, ?_, ?_⟩ <;>
      · simp only [perspApply, m3act, mSq, sqCfg, sqQuad, ptQ]
        norm_num
  have h2 : m3mul mSqInv mSq = m3id := by
    simp only [m3mul, mSq, mSqInv, m3id, M3.mk.injEq]
    norm_num
  have h3 : perspApply mSq (ptQ (150, 150)) = some (199/4, 199/4) := by
    simp only [perspApply, m3act, mSq, ptQ]
    norm_num
  exact ⟨h1, h2, h3, warp_unwarp_roundtrip sqCfg mSq mSqInv h1 h2 (150, 150) _ h3⟩

/-- Observable state of the persisted size-config record
(`size_config.json`): the file may be absent, present but failing to
open or to parse as JSON, or parsed into a JSON object, modelled as an
association list from keys to numeric values. -/
inductive SizeConfigFile where
  | missing : SizeConfigFile
  | unreadable : SizeConfigFile
  | parsed : List (String × ℚ) → SizeConfigFile
deriving DecidableEq

/-- Embedding of `os.path.exists(SIZE_CONFIG_FILE)`. -/
def fileExists : SizeConfigFile → Bool
  | .missing => false
  | .unreadable => true
  | .parsed _ => true

/-- The fallible body of the `try` block of `load_calibration_config`:
`open` followed by `json.load`, raising on a missing or unreadable
file. -/
def openAndParse : SizeConfigFile → Except String (List (String × ℚ))
  | .missing => .error "FileNotFoundError"
  | .unreadable => .error "JSONDecodeError"
  | .parsed cfg => .ok cfg

/-- Embedding of `load_calibration_config` (`Size.py`, lines 9-19): if the file
exists, try to parse it and return `config.get("pixels_per_mm", 10.0)`;
on any exception log and fall through; return the default 10.0 when the
file is missing or the read failed. -/
def load_calibration_config (s : SizeConfigFile) : ℚ :=
  if fileExists s then
    match openAndParse s with
    | .ok cfg => (cfg.lookup "pixels_per_mm").getD 10
    | .error _ => 10
  else 10

/-- The fallible body of the `try` block of `save_calibration_config`:
write `{"pixels_per_mm": ratio}`; the boolean says whether the
file-system write succeeds. -/
def writeConfig (r : ℚ) (writeOk : Bool) : Except String SizeConfigFile :=
  if writeOk then .ok (.parsed [("pixels_per_mm", r)]) else .error "IOError"

/-- Embedding of `save_calibration_config` (`Size.py`, lines 21-29): attempt the
write; an exception is caught and logged, never propagated.  Returns the
resulting record on success and `none` when the write failed. -/
def save_calibration_config (r : ℚ) (writeOk : Bool) : Option SizeConfigFile :=
  match writeConfig r writeOk with
  | .ok s => some s
  | .error _ => none

/-- Length of the Python/`numpy` slice `a:b` over an axis of length `n`:
negative indices count from the end, then both endpoints are clamped to
`[0, n]`, and the length is the clamped difference. -/
def sliceLen (a b : ℤ) (n : ℕ) : ℕ :=
  let norm := fun (i : ℤ) => if i < 0 then max (i + (n : ℤ)) 0 else min i (n : ℤ)
  (norm b - norm a).toNat

/-- Embedding of `calculate_size` (`Size.py`, lines 45-72) over a frame of height `H`
and width `W`.  With `pixels_per_mm = None` the ratio is loaded from the
size-config file if it exists and defaults to 10.0 otherwise; the four
box coordinates are truncated with `int()`; if the sliced region
`img[y1:y2, x1:x2]` is empty the result is (0, 0); otherwise the pixel
width `x2 - x1` and height `y2 - y1` are each divided by the ratio. -/
def calculate_size (store : SizeConfigFile) (H W : ℕ)
    (bbox : ℚ × ℚ × ℚ × ℚ) (pixels_per_mm : Option ℚ) : ℚ × ℚ :=
  let ppm := match pixels_per_mm with
    | some r => r
    | none => if fileExists store then load_calibration_config store else 10
  let x1 := pytrunc bbox.1
  let y1 := pytrunc bbox.2.1
  let x2 := pytrunc bbox.2.2.1
  let y2 := pytrunc bbox.2.2.2
  if sliceLen y1 y2 H = 0 ∨ sliceLen x1 x2 W = 0 then (0, 0)
  else (((x2 - x1 : ℤ) : ℚ) / ppm, ((y2 - y1 : ℤ) : ℚ) / ppm)

/-- The mouse-up handler of the calibration loop (`Size.py`, lines
106-117) over an abstract square-root function `f` standing for the
`numpy` float square root: if points were started, append the release
point, measure the pixel distance between the first two collected
points, and update the working ratio only when that distance is
positive. -/
def calib_mouse_up (f : ℚ → ℚ) (known : ℚ) (refPts : List Pt)
    (pixels_per_mm : ℚ) (u : Pt) : List Pt × ℚ :=
  match refPts with
  | [] => (refPts, pixels_per_mm)
  | a :: rest =>
    let pts := (a :: rest) ++ [u]
    let d := f ((distSq (pts.getD 0 (0, 0)) (pts.getD 1 (0, 0)) : ℤ) : ℚ)
    (pts, if 0 < d then d / known else pixels_per_mm)

/-- The block after the measurement wait loop of `calibrate_system`
(`Size.py`, lines 129-139): whenever exactly two points were collected,
recompute the pixel distance, adopt `distance_px / known_size_mm` as the
ratio, and persist it — with no positivity guard.  Returns the ratio the
surrounding function will use and the value handed to
`save_calibration_config` (`none` when the block did not run). -/
def calibrate_finalize (f : ℚ → ℚ) (known prev : ℚ) (refPts : List Pt) :
    ℚ × Option ℚ :=
  if refPts.length = 2 then
    let d := f ((distSq (refPts.getD 0 (0, 0)) (refPts.getD 1 (0, 0)) : ℤ) : ℚ)
    (d / known, some (d / known))
  else (prev, none)

/-- C5: for every bounding box whose truncated coordinates cut a
non-empty region from the frame and every positive ratio,
`calculate_size` returns exactly the truncated pixel width and height
divided by the ratio; a reference pick at pixel distance 300 with known
length 150 yields ratio 2; and a 100 by 50 pixel box at ratio 2 reports
(50, 25). -/
theorem calculate_size_formula :
    (∀ (store : SizeConfigFile) (H W : ℕ) (bbox : ℚ × ℚ × ℚ × ℚ) (r : ℚ),
      0 < r →
      sliceLen (pytrunc bbox.2.1) (pytrunc bbox.2.2.2) H ≠ 0 →
      sliceLen (pytrunc bbox.1) (pytrunc bbox.2.2.1) W ≠ 0 →
      calculate_size store H W bbox (some r) =
        (((pytrunc bbox.2.2.1 - pytrunc bbox.1 : ℤ) : ℚ) / r,
         ((pytrunc bbox.2.2.2 - pytrunc bbox.2.1 : ℤ) : ℚ) / r)) ∧
    (∀ f : ℚ → ℚ, f 90000 = 300 →
      (calibrate_finalize f 150 10 [(0, 0), (300, 0)]).1 = 2) ∧
    (∀ store : SizeConfigFile,
      calculate_size store 480 640 (0, 0, 100, 50) (some 2) = (50, 25)) := by
  refine ⟨?_, ?_, ?_⟩
  · intro store H W bbox r _hr h1 h2
    simp only [calculate_size]
    rw [if_neg (not_or.2 ⟨h1, h2⟩)]
  · intro f hf
    norm_num [calibrate_finalize, distSq, hf]
  · intro store
    have hx : pytrunc (0 : ℚ) = 0 := by decide
    have hx2 : pytrunc (100 : ℚ) = 100 := by decide
    have hy2 : pytrunc (50 : ℚ) = 50 := by decide
    have hcond : ¬(sliceLen (pytrunc ((0 : ℚ), (0 : ℚ), (100 : ℚ), (50 : ℚ)).2.1)
        (pytrunc ((0 : ℚ), (0 : ℚ), (100 : ℚ), (50 : ℚ)).2.2.2) 480 = 0 ∨
        sliceLen (pytrunc ((0 : ℚ), (0 : ℚ), (100 : ℚ), (50 : ℚ)).1)
        (pytrunc ((0 : ℚ), (0 : ℚ), (100 : ℚ), (50 : ℚ)).2.2.1) 640 = 0) := by
      decide
    simp only [calculate_size]
    rw [if_neg hcond]
    norm_num [hx, hx2, hy2]

/-- Witness for C5: concrete evaluation of both hypothesised parts, the
square-root function instantiated with the exact integer square root. -/
theorem calculate_size_formula_witness :
    calculate_size .missing 480 640 ((0 : ℚ), (0 : ℚ), (100 : ℚ), (50 : ℚ))
        (some 2) =
      (((pytrunc (100 : ℚ) - pytrunc (0 : ℚ) : ℤ) : ℚ) / 2,
       ((pytrunc (50 : ℚ) - pytrunc (0 : ℚ) : ℤ) : ℚ) / 2) ∧
    (calibrate_finalize (fun q => ((Nat.sqrt q.num.toNat : ℕ) : ℚ)) 150 10
      [(0, 0), (300, 0)]).1 = 2 :=
  ⟨calculate_size_formula.1 .missing 480 640 (0, 0, 100, 50) 2 (by norm_num)
      (by decide) (by decide),
   calculate_size_formula.2.1 (fun q => ((Nat.sqrt q.num.toNat : ℕ) : ℚ))
      (by
        show ((Nat.sqrt (90000 : ℚ).num.toNat : ℕ) : ℚ) = 300
        rw [show (90000 : ℚ).num.toNat = 90000 by decide]
        rw [show Nat.sqrt 90000 = 300 from (Nat.eq_sqrt.2 (by norm_num)).symm]
        norm_num)⟩

/-- C6 (code bug): with two identical picked points the mouse-up handler
itself retains the previous ratio (its positivity guard rejects the
zero distance), but the finalize block of `calibrate_system` still runs
on the two collected points, adopts the ratio 0 and hands 0 to
`save_calibration_config`, instead of retaining the previous ratio. -/
theorem calibrate_zero_distance_bug (f : ℚ → ℚ) (hf : f 0 = 0)
    (prev known : ℚ) (_hk : 0 < known) (hprev : prev ≠ 0) :
    calib_mouse_up f known [(50, 50)] prev (50, 50) =
      ([(50, 50), (50, 50)], prev) ∧
    calibrate_finalize f known prev [(50, 50), (50, 50)] = (0, some 0) ∧
    (calibrate_finalize f known prev [(50, 50), (50, 50)]).1 ≠ prev := by
  refine ⟨?_, ?_, ?_⟩
  · norm_num [calib_mouse_up, distSq, hf]
  · norm_num [calibrate_finalize, distSq, hf]
  · norm_num [calibrate_finalize, distSq, hf]
    exact fun h => hprev h.symm

/-- Witness for C6: the divergence evaluated at previous ratio 2 and the
default known length 150. -/
theorem calibrate_zero_distance_bug_witness :
    calib_mouse_up (fun q => q) 150 [(50, 50)] 2 (50, 50) =
      ([(50, 50), (50, 50)], 2) ∧
    calibrate_finalize (fun q => q) 150 2 [(50, 50), (50, 50)] = (0, some 0) ∧
    (calibrate_finalize (fun q => q) 150 2 [(50, 50), (50, 50)]).1 ≠ 2 :=
  calibrate_zero_distance_bug (fun q => q) rfl 2 150 (by norm_num) (by norm_num)

/-- C7: for every frame, every positive ratio and every bounding box
whose truncated coordinates slice an empty region out of the frame
(including boxes lying fully outside the frame), `calculate_size`
returns (0, 0). -/
theorem calculate_size_zero_area (store : SizeConfigFile) (H W : ℕ)
    (bbox : ℚ × ℚ × ℚ × ℚ) (r : ℚ) (_hr : 0 < r)
    (hz : sliceLen (pytrunc bbox.2.1) (pytrunc bbox.2.2.2) H = 0 ∨
      sliceLen (pytrunc bbox.1) (pytrunc bbox.2.2.1) W = 0) :
    calculate_size store H W bbox (some r) = (0, 0) := by
  simp only [calculate_size]
  rw [if_pos hz]

/-- Witness for C7: a box lying fully to the right of a 640 by 480
frame. -/
theorem calculate_size_zero_area_witness :
    calculate_size .missing 480 640 ((700 : ℚ), (20 : ℚ), (800 : ℚ), (30 : ℚ))
      (some 2) = (0, 0) :=
  calculate_size_zero_area .missing 480 640 (700, 20, 800, 30) 2 (by norm_num)
    (by decide)

/-- C8: saving a ratio and loading it back returns exactly that
ratio. -/
theorem calibration_roundtrip (r : ℚ) (_hr : 0 < r) :
    (save_calibration_config r true).map load_calibration_config = some r := by
  simp [save_calibration_config, writeConfig, load_calibration_config,
    fileExists, openAndParse]

/-- Witness for C8 at ratio 2. -/
theorem calibration_roundtrip_witness :
    (save_calibration_config 2 true).map load_calibration_config = some 2 :=
  calibration_roundtrip 2 (by norm_num)

/-- C9: the calibration store never raises: a missing file and a failed
read both make `load_calibration_config` return the default 10.0, and
`save_calibration_config` returns normally whether or not the write
succeeds, persisting the record exactly on success. -/
theorem calibration_store_never_raises :
    (∀ s : SizeConfigFile, fileExists s = false →
      load_calibration_config s = 10) ∧
    (∀ s : SizeConfigFile, ∀ e : String, openAndParse s = .error e →
      load_calibration_config s = 10) ∧
    (∀ r : ℚ, save_calibration_config r false = none) ∧
    (∀ r : ℚ, save_calibration_config r true =
      some (.parsed [("pixels_per_mm", r)])) := by
  refine ⟨?_, ?_, fun r => rfl, fun r => rfl⟩
  · intro s hs
    simp [load_calibration_config, hs]
  · intro s e he
    cases s with
    | missing => rfl
    | unreadable => rfl
    | parsed cfg => exact absurd he (by simp [openAndParse])

/-- Witness for C9: concrete missing-file load, unreadable-file load and
failing save. -/
theorem calibration_store_never_raises_witness :
    load_calibration_config .missing = 10 ∧
    load_calibration_config .unreadable = 10 ∧
    save_calibration_config 2 false = none :=
  ⟨calibration_store_never_raises.1 .missing rfl,
   calibration_store_never_raises.2.1 .unreadable "JSONDecodeError" rfl,
   calibration_store_never_raises.2.2.1 2⟩

/-- C10: calling `calculate_size` without a ratio behaves exactly as
calling it with the ratio loaded from the size-config file when that
file exists and with the constant 10.0 otherwise. -/
theorem calculate_size_default_ratio (store : SizeConfigFile) (H W : ℕ)
    (bbox : ℚ × ℚ × ℚ × ℚ) :
    calculate_size store H W bbox none =
      calculate_size store H W bbox
        (some (if fileExists store then load_calibration_config store else 10)) :=
  rfl
